import Mathlib

/-!
Verification of the solar-analysis job server (src/core/python) and its
Maya client (src/integrations/maya/python) against the repository
specification.

The development shallowly embeds the Python sources:

* `engine.run_optix_analysis` and `pipeline.analyze_solar_scene` become
  functions over an explicit environment record (`EngineEnv`,
  `PipelineEnv`) that fixes the outcome of every external call
  (USD reading, sun-vector generation, the OptiX backend, file writes).
  Scalars read from the scene are modelled by `Fl`, which distinguishes
  finite rationals from NaN and infinity so that the numpy
  `isnan`/`isinf` validation of `engine.py` is expressible.
* The FastAPI server (`server.py`) becomes a transition system: the
  shared `jobs` dict is an association list, each background
  `process_job` task is a small program with an explicit program
  counter (one store mutation per step, matching the Python statements,
  including the `KeyError` paths when the job id has been deleted), and
  request handlers (`submit`, `delete`) are atomic events.
* The HTTP endpoints `GET /`, `GET /status`, `GET /result` become pure
  functions of the store.
* `usd_io.ecotect_color` / `usd_io.results_to_colors` become rational
  functions (Python floats are modelled by `ℚ`).
* The Maya client's `stop_polling` becomes a pure state transformer.
-/

deriving instance DecidableEq for Except

namespace Soba

/-! ## Scalars as read from the scene (numpy values) -/

/-- A scalar from a numpy array: a finite rational, NaN, or an infinity.
This makes the `np.isnan` / `np.isinf` checks of `engine.py` expressible. -/
inductive Fl where
  | fin (q : ℚ)
  | nan
  | inf
deriving DecidableEq

/-- Model of `np.isnan` on one scalar. -/
def Fl.isNaN : Fl → Bool
  | .nan => true
  | _ => false

/-- Model of `np.isinf` on one scalar. -/
def Fl.isInf : Fl → Bool
  | .inf => true
  | _ => false

/-- Model of `np.isnan(a).any() or np.isinf(a).any()` on a flattened array. -/
def hasNonFinite (l : List Fl) : Bool :=
  l.any (fun x => x.isNaN || x.isInf)

/-! ## Scene data and the engine stage (`engine.py`) -/

/-- The fields of the dict returned by `usd_io.read_solar_usd` that
`engine.run_optix_analysis` consumes.  Arrays are flattened scalar
lists; only their finiteness matters to the embedded logic. -/
structure SceneData where
  face_centers : List Fl
  face_normals : List Fl
  context_triangles : List Fl
  offset : ℚ
  epw_file : String
deriving DecidableEq

/-- Outcomes of the external calls made by `engine.py`:
`setup_optix_module`, `os.path.exists` on the EPW path,
`lb.get_sun_vectors`, and `optix_module.analyze`. -/
structure EngineEnv where
  setup : Except String Unit
  epw_exists : Bool
  sun_vectors : Except String (List Fl)
  analyze : Except String (List ℚ)
deriving DecidableEq

/-- Embedding of `engine.run_optix_analysis` (src/core/python/engine.py,
lines 95-171): EPW existence check, sun-vector generation, the four
non-finiteness validations in source order (each raising a `ValueError`
naming the offending array), then the engine call. -/
def run_optix_analysis (env : EngineEnv) (sd : SceneData) : Except String (List ℚ) := do
  if env.epw_exists = false then
    throw "Missing or invalid epw file path"
  let sun_vectors ← env.sun_vectors
  if hasNonFinite sd.face_centers then
    throw "Invalid face_centers: contains NaN or Inf"
  if hasNonFinite sd.face_normals then
    throw "Invalid face_normals: contains NaN or Inf"
  if hasNonFinite sd.context_triangles then
    throw "Invalid scene_triangles: contains NaN or Inf"
  if hasNonFinite sun_vectors then
    throw "Invalid sun_vectors: contains NaN or Inf"
  env.analyze

/-! ## The pipeline (`pipeline.py`) -/

/-- Outcomes of the external calls made by `pipeline.analyze_solar_scene`:
the USD read of step 1, the engine environment of step 2, and the
result-writing of step 3 (`write_results_to_usd` / `write_results_csv`). -/
structure PipelineEnv where
  read_scene : Except String SceneData
  engine : EngineEnv
  write : Except String Unit
deriving DecidableEq

/-- Model of `os.path.splitext(p)[0]` for the plain file names used by
the server: the part of `p` before its last dot (all of `p` when there
is no dot). -/
def splitextBase (p : String) : String :=
  let cs := p.toList
  match ((List.range cs.length).filter (fun i => cs.getD i ' ' = '.')).getLast? with
  | some i => String.mk (cs.take i)
  | none => p

/-- Embedding of `pipeline.analyze_solar_scene` (src/core/python/pipeline.py,
lines 5-64).  Step 1 and step 2 are wrapped in `try`/`except` blocks that
print the failure and `return None`; step 3 is not wrapped, so a write
failure escapes as an exception.  On success the function returns the
derived output path.  The `Except.ok none` results are the swallowed
failures of steps 1 and 2. -/
def analyze_solar_scene (env : PipelineEnv) (usd_path : String) :
    Except String (Option String) :=
  match env.read_scene with
  | .error _ => .ok none
  | .ok sd =>
    match (do env.engine.setup; run_optix_analysis env.engine sd :
        Except String (List ℚ)) with
    | .error _ => .ok none
    | .ok _results =>
      match env.write with
      | .error e => .error e
      | .ok _ => .ok (some (splitextBase usd_path ++ "_results.usda"))

/-! ## The job store (`server.py`, the `jobs` dict) -/

abbrev JobId := String

/-- One value of the `jobs` dict of `server.py`.  The `status` field is a
string exactly as in the source; `submitted_at`/`started_at`/`completed_at`
are abstract clock readings standing for `datetime.now().isoformat()`. -/
structure JobRecord where
  status : String
  result_path : Option String
  error : Option String
  traceback : Option String
  submitted_at : Nat
  started_at : Option Nat
  completed_at : Option Nat
deriving DecidableEq

abbrev JobStore := List (JobId × JobRecord)

/-- Dictionary lookup `jobs[id]` (as an `Option`). -/
def storeGet : JobStore → JobId → Option JobRecord
  | [], _ => none
  | (k, r) :: rest, id => if k = id then some r else storeGet rest id

/-- Dictionary update of an existing key: `jobs[id] = r`. -/
def storeSet : JobStore → JobId → JobRecord → JobStore
  | [], _, _ => []
  | (k, v) :: rest, id, r =>
    if k = id then (k, r) :: storeSet rest id r else (k, v) :: storeSet rest id r

/-- Dictionary removal: `del jobs[id]`. -/
def storeRemove : JobStore → JobId → JobStore
  | [], _ => []
  | (k, v) :: rest, id =>
    if k = id then storeRemove rest id else (k, v) :: storeRemove rest id

/-! ## The background processor (`server.py`, `process_job`) -/

/-- Program counter of one in-flight `process_job` task.  Each `pSet` /
`eSet` state performs exactly one `jobs[job_id][...] = ...` statement of
the source; `pRun` performs the USD fix-up and the whole pipeline call,
which touch no job record.  `crashed` marks a `KeyError` raised inside
the `except` branch, i.e. an unhandled exception escaping `process_job`. -/
inductive PC where
  | pSetProcessing
  | pSetStartedAt
  | pRun
  | pSetComplete
  | pSetResultPath
  | pSetCompletedAt
  | eSetStatus
  | eSetError
  | eSetTraceback
  | done
  | crashed
deriving DecidableEq

/-- Model of `str(KeyError(job_id))`. -/
def keyErrorMsg (id : JobId) : String := "KeyError: " ++ id

/-- Model of `traceback.format_exc()` for the recorded message. -/
def tracebackText (msg : String) : String :=
  "Traceback (most recent call last): " ++ msg

/-- One in-flight background task created by `submit_job`. -/
structure ProcState where
  job_id : JobId
  usd_path : String
  usd_fix : Except String Unit
  env : PipelineEnv
  pc : PC
  pending_msg : String
  pending_result : Option String
deriving DecidableEq

/-- One statement of `process_job` (src/core/python/server.py, lines
43-82).  Every `jobs[job_id]` access raises `KeyError` when the id has
been deleted; inside the `try` body that jumps to the `except` branch,
inside the `except` branch it escapes unhandled (`crashed`). -/
def procStep (clock : Nat) (store : JobStore) (p : ProcState) :
    JobStore × ProcState :=
  match p.pc with
  | .pSetProcessing =>
    match storeGet store p.job_id with
    | none => (store, { p with pc := .eSetStatus, pending_msg := keyErrorMsg p.job_id })
    | some r => (storeSet store p.job_id { r with status := "processing" },
        { p with pc := .pSetStartedAt })
  | .pSetStartedAt =>
    match storeGet store p.job_id with
    | none => (store, { p with pc := .eSetStatus, pending_msg := keyErrorMsg p.job_id })
    | some r => (storeSet store p.job_id { r with started_at := some clock },
        { p with pc := .pRun })
  | .pRun =>
    match p.usd_fix with
    | .error e => (store, { p with pc := .eSetStatus, pending_msg := e })
    | .ok _ =>
      match analyze_solar_scene p.env p.usd_path with
      | .error e => (store, { p with pc := .eSetStatus, pending_msg := e })
      | .ok rp => (store, { p with pc := .pSetComplete, pending_result := rp })
  | .pSetComplete =>
    match storeGet store p.job_id with
    | none => (store, { p with pc := .eSetStatus, pending_msg := keyErrorMsg p.job_id })
    | some r => (storeSet store p.job_id { r with status := "complete" },
        { p with pc := .pSetResultPath })
  | .pSetResultPath =>
    match storeGet store p.job_id with
    | none => (store, { p with pc := .eSetStatus, pending_msg := keyErrorMsg p.job_id })
    | some r => (storeSet store p.job_id { r with result_path := p.pending_result },
        { p with pc := .pSetCompletedAt })
  | .pSetCompletedAt =>
    match storeGet store p.job_id with
    | none => (store, { p with pc := .eSetStatus, pending_msg := keyErrorMsg p.job_id })
    | some r => (storeSet store p.job_id { r with completed_at := some clock },
        { p with pc := .done })
  | .eSetStatus =>
    match storeGet store p.job_id with
    | none => (store, { p with pc := .crashed })
    | some r => (storeSet store p.job_id { r with status := "error" },
        { p with pc := .eSetError })
  | .eSetError =>
    match storeGet store p.job_id with
    | none => (store, { p with pc := .crashed })
    | some r => (storeSet store p.job_id { r with error := some p.pending_msg },
        { p with pc := .eSetTraceback })
  | .eSetTraceback =>
    match storeGet store p.job_id with
    | none => (store, { p with pc := .crashed })
    | some r => (storeSet store p.job_id
        { r with traceback := some (tracebackText p.pending_msg) },
        { p with pc := .done })
  | .done => (store, p)
  | .crashed => (store, p)

/-! ## The server as a transition system -/

/-- Global server state: the `jobs` dict, the in-flight background
tasks (never removed; finished tasks stay at `done` or `crashed`), and
an abstract clock supplying timestamps. -/
structure SysState where
  store : JobStore
  procs : List ProcState
  clock : Nat

def initState : SysState := ⟨[], [], 0⟩

/-- Interleaving events: a `submit_job` request (its fresh uuid, the
saved scene path, and the outcomes of the external calls its background
task will make), one statement of background task number `i`, and a
`delete_job` request. -/
inductive Event where
  | submit (id : JobId) (usd_path : String) (usd_fix : Except String Unit)
      (env : PipelineEnv)
  | procTick (i : Nat)
  | deleteJob (id : JobId)

/-- One event of the server.  A `submit` only fires when its uuid is
globally fresh (uuid4 collisions are assumed impossible: the id is
neither a live record nor owned by any past or present task).
`deleteJob` on an unknown id is the 404 path and changes nothing. -/
def step (s : SysState) (e : Event) : SysState :=
  match e with
  | .submit id usd_path usd_fix env =>
    if storeGet s.store id = none ∧ ∀ p ∈ s.procs, p.job_id ≠ id then
      let newRec : JobRecord :=
        { status := "queued", result_path := none, error := none,
          traceback := none, submitted_at := s.clock, started_at := none,
          completed_at := none }
      { store := (id, newRec) :: s.store,
        procs := s.procs ++ [⟨id, usd_path, usd_fix, env, .pSetProcessing, "", none⟩],
        clock := s.clock + 1 }
    else s
  | .procTick i =>
    match s.procs[i]? with
    | none => s
    | some p =>
      let sp := procStep s.clock s.store p
      { store := sp.1, procs := s.procs.set i sp.2, clock := s.clock + 1 }
  | .deleteJob id =>
    match storeGet s.store id with
    | none => s
    | some _ => { s with store := storeRemove s.store id, clock := s.clock + 1 }

/-- The state reached from the empty server by a sequence of events. -/
def run (es : List Event) : SysState := es.foldl step initState

/-! ## The read-only endpoints (`server.py`) -/

/-- Response of `GET /` (src/core/python/server.py, lines 85-97). -/
structure Health where
  status : String
  total : Nat
  queued : Nat
  processing : Nat
  complete : Nat
  error : Nat
deriving DecidableEq

/-- Embedding of the health endpoint `root`: the total is `len(jobs)` and
each per-status count is `sum(1 for j in jobs.values() if ...)`. -/
def root_health (jobs : JobStore) : Health :=
  { status := "running",
    total := jobs.length,
    queued := jobs.countP (fun q => q.2.status = "queued"),
    processing := jobs.countP (fun q => q.2.status = "processing"),
    complete := jobs.countP (fun q => q.2.status = "complete"),
    error := jobs.countP (fun q => q.2.status = "error") }

/-- Response of `GET /status/job_id` (lines 144-169). -/
inductive StatusResponse where
  | notFound (id : JobId)
  | ok (id : JobId) (status : String) (submitted_at : Nat)
      (started_at completed_at : Option Nat) (error traceback : Option String)
deriving DecidableEq

/-- Embedding of `get_status`: 404 on an unknown id, otherwise the status
with the timestamp and error fields the handler conditionally includes. -/
def get_status (jobs : JobStore) (id : JobId) : StatusResponse :=
  match storeGet jobs id with
  | none => .notFound id
  | some j =>
    .ok id j.status j.submitted_at
      (if j.status = "processing" then j.started_at else none)
      (if j.status = "complete" then j.completed_at else none)
      (if j.status = "error" then j.error else none)
      (if j.status = "error" then j.traceback else none)

/-- Response of `GET /result/job_id` (lines 172-199). -/
inductive ResultResponse where
  | notFound404
  | stateError400 (status : String)
  | serverError500
  | payload (path : String)
deriving DecidableEq

/-- Embedding of `get_result`: 404 on an unknown id; 400 with the current
status when the job is not `complete`; 500 when the result file does not
exist on disk — including the case `result_path is None`, where
`os.path.exists(None)` raises `TypeError` and FastAPI turns the unhandled
exception into an HTTP 500; the `FileResponse` payload otherwise. -/
def get_result (jobs : JobStore) (fileExists : String → Bool) (id : JobId) :
    ResultResponse :=
  match storeGet jobs id with
  | none => .notFound404
  | some j =>
    if j.status = "complete" then
      match j.result_path with
      | none => .serverError500
      | some p => if fileExists p then .payload p else .serverError500
    else .stateError400 j.status

/-! ## Color mapping (`usd_io.py`) -/

/-- The eleven stops of Ecotect colorset 3 (src/core/python/usd_io.py,
lines 105-117), written exactly as the source's 255-based fractions. -/
def ecotect_colors : List (ℚ × ℚ × ℚ) :=
  [(0/255, 0/255, 255/255),
   (53/255, 0/255, 202/255),
   (107/255, 0/255, 148/255),
   (160/255, 0/255, 95/255),
   (214/255, 0/255, 41/255),
   (255/255, 12/255, 0/255),
   (255/255, 66/255, 0/255),
   (255/255, 119/255, 0/255),
   (255/255, 173/255, 0/255),
   (255/255, 226/255, 0/255),
   (255/255, 255/255, 0/255)]

/-- The body of `ecotect_color` after the clamp: the two endpoint guards,
the redundant out-of-range guard, and the per-channel linear
interpolation on the enclosing segment.  `int(segment)` is `Int.floor`
(the argument is non-negative in this branch). -/
def ecotect_of_val (val : ℚ) : ℚ × ℚ × ℚ :=
  if val ≤ 0 then ecotect_colors.getD 0 (0, 0, 0)
  else if 1 ≤ val then ecotect_colors.getD (ecotect_colors.length - 1) (0, 0, 0)
  else
    let num_segments : ℕ := ecotect_colors.length - 1
    let segment : ℚ := val * (num_segments : ℚ)
    let segment_index : ℤ := ⌊segment⌋
    if (num_segments : ℤ) ≤ segment_index then
      ecotect_colors.getD (ecotect_colors.length - 1) (0, 0, 0)
    else
      let t : ℚ := segment - (segment_index : ℚ)
      let color1 := ecotect_colors.getD segment_index.toNat (0, 0, 0)
      let color2 := ecotect_colors.getD (segment_index.toNat + 1) (0, 0, 0)
      (color1.1 + t * (color2.1 - color1.1),
       color1.2.1 + t * (color2.2.1 - color1.2.1),
       color1.2.2 + t * (color2.2.2 - color1.2.2))

/-- Embedding of `usd_io.ecotect_color` (lines 100-142): clamp the input
to the unit interval, then apply the stop table. -/
def ecotect_color (normalized_value : ℚ) : ℚ × ℚ × ℚ :=
  ecotect_of_val (max 0 (min 1 normalized_value))

/-- The normalization step of `usd_io.results_to_colors` (lines 156-160):
`(v - min) / (max - min)` when `max > min`, otherwise `0.5` everywhere.
`none` is the numpy error on an empty array. -/
def normalize_results (results : List ℚ) : Option (List ℚ) :=
  match results.max?, results.min? with
  | some mx, some mn =>
    some (if mn < mx then results.map (fun v => (v - mn) / (mx - mn))
          else results.map (fun _ => (1 : ℚ) / 2))
  | _, _ => none

/-- The `ecotect` branch of `usd_io.results_to_colors` (lines 162-167):
each normalized value is mapped through `ecotect_color`. -/
def results_to_colors_ecotect (results : List ℚ) : Option (List (ℚ × ℚ × ℚ)) :=
  (normalize_results results).map (List.map ecotect_color)

/-! ## The Maya client (`client.py`) -/

/-- The mutable state of `SolarAnalysisClient` that `stop_polling`
touches.  `κ` is the type of the stored callback objects. -/
structure ClientState (κ : Type) where
  current_job_id : Option String
  timer_id : Option Nat
  result_callback : Option κ
  status_callback : Option κ
deriving DecidableEq

/-- Embedding of `SolarAnalysisClient.stop_polling`
(src/integrations/maya/python/client.py, lines 286-296): kill the timer
script job when one is tracked and clear `timer_id`, then clear
`current_job_id` and `result_callback`.  The source never touches
`status_callback`. -/
def stop_polling {κ : Type} (s : ClientState κ) : ClientState κ :=
  { s with timer_id := none, current_job_id := none, result_callback := none }

/-! ## Derived specification-side definitions and concrete scenarios -/

/-- The claimed mid-branch behaviour of the default mapping: pick the
enclosing segment among the ten equal-width segments of the eleven stops
and interpolate each channel linearly. -/
def segLerp (x : ℚ) : ℚ × ℚ × ℚ :=
  let i : ℕ := (⌊x * 10⌋).toNat
  let t : ℚ := x * 10 - ((⌊x * 10⌋ : ℤ) : ℚ)
  let c1 := ecotect_colors.getD i (0, 0, 0)
  let c2 := ecotect_colors.getD (i + 1) (0, 0, 0)
  (c1.1 + t * (c2.1 - c1.1),
   c1.2.1 + t * (c2.2.1 - c1.2.1),
   c1.2.2 + t * (c2.2.2 - c1.2.2))

/-- All three channels of a color lie in the closed unit interval. -/
def inUnit (c : ℚ × ℚ × ℚ) : Prop :=
  0 ≤ c.1 ∧ c.1 ≤ 1 ∧ 0 ≤ c.2.1 ∧ c.2.1 ≤ 1 ∧ 0 ≤ c.2.2 ∧ c.2.2 ≤ 1

/-- A scene whose face-center array contains a NaN. -/
def sceneNaN : SceneData :=
  { face_centers := [.nan, .fin 1], face_normals := [.fin 0],
    context_triangles := [.fin 2], offset := 1/10, epw_file := "weather.epw" }

/-- An engine environment in which every external call succeeds. -/
def engNaN : EngineEnv :=
  { setup := .ok (), epw_exists := true, sun_vectors := .ok [.fin 0],
    analyze := .ok [] }

/-- A pipeline environment whose only failure is the NaN in the scene. -/
def envNaN : PipelineEnv :=
  { read_scene := .ok sceneNaN, engine := engNaN, write := .ok () }

/-- Submit a job with the NaN scene and let its processor run to the end. -/
def esC1 : List Event :=
  [.submit "j1" "scene.usda" (.ok ()) envNaN, .procTick 0, .procTick 0,
   .procTick 0, .procTick 0, .procTick 0, .procTick 0]

/-- A fully well-formed scene. -/
def sceneOK : SceneData :=
  { face_centers := [.fin 1], face_normals := [.fin 0],
    context_triangles := [.fin 2], offset := 1/10, epw_file := "weather.epw" }

/-- A pipeline environment in which every stage succeeds. -/
def envOK : PipelineEnv :=
  { read_scene := .ok sceneOK,
    engine := { setup := .ok (), epw_exists := true, sun_vectors := .ok [.fin 0],
                analyze := .ok [2, 3] },
    write := .ok () }

/-- Submit a healthy job, let it reach the pipeline stage, delete it, and
let the processor run on: it hits `KeyError` in the `try` body and again
in the `except` branch. -/
def esC4 : List Event :=
  [.submit "j2" "scene.usda" (.ok ()) envOK, .procTick 0, .procTick 0,
   .deleteJob "j2", .procTick 0, .procTick 0, .procTick 0]

/-- One submitted job, not yet started. -/
def esW : List Event := [.submit "w" "scene.usda" (.ok ()) envOK]

/-- The record of job `w` right after submission. -/
def recW : JobRecord :=
  { status := "queued", result_path := none, error := none, traceback := none,
    submitted_at := 0, started_at := none, completed_at := none }

/-- The record of job `w` after the processor's first statement. -/
def recW2 : JobRecord :=
  { status := "processing", result_path := none, error := none, traceback := none,
    submitted_at := 0, started_at := none, completed_at := none }

/-- A queued demo record. -/
def recQ1 : JobRecord :=
  { status := "queued", result_path := none, error := none, traceback := none,
    submitted_at := 0, started_at := none, completed_at := none }

/-- A complete demo record whose result file has vanished from disk. -/
def recD1 : JobRecord :=
  { status := "complete", result_path := some "gone.usda", error := none,
    traceback := none, submitted_at := 0, started_at := some 1,
    completed_at := some 2 }

/-- A complete demo record whose result file is present on disk. -/
def recD2 : JobRecord :=
  { status := "complete", result_path := some "res.usda", error := none,
    traceback := none, submitted_at := 0, started_at := some 1,
    completed_at := some 2 }

/-- A demo store for the result endpoint. -/
def demoJobs : JobStore := [("q1", recQ1), ("c1", recD1), ("c2", recD2)]

/-- A demo filesystem: only `res.usda` exists. -/
def demoFe : String → Bool := fun p => p == "res.usda"

/-- A client tracking a job, a timer, and both callbacks. -/
def clientDemo : ClientState ℕ :=
  { current_job_id := some "job-1", timer_id := some 7,
    result_callback := some 0, status_callback := some 1 }

/-! ## The system invariant -/

/-- The job status a record must hold, as a function of the position of
the (unique) background task owning it.  `crashed` is only reachable
after the record has been deleted, so a live record is impossible there. -/
def pcStatus : PC → String → Prop
  | .pSetProcessing, st => st = "queued"
  | .pSetStartedAt, st => st = "processing"
  | .pRun, st => st = "processing"
  | .pSetComplete, st => st = "processing"
  | .pSetResultPath, st => st = "complete"
  | .pSetCompletedAt, st => st = "complete"
  | .eSetStatus, st => st = "processing"
  | .eSetError, st => st = "error"
  | .eSetTraceback, st => st = "error"
  | .done, st => st = "complete" ∨ st = "error"
  | .crashed, _ => False

/-- The four status strings the server ever stores. -/
def statusLegal (st : String) : Prop :=
  st = "queued" ∨ st = "processing" ∨ st = "complete" ∨ st = "error"

/-- The inductive invariant of the server: every stored status is one of
the four legal strings, background tasks own pairwise distinct job ids,
and every live record's status agrees with its task's program counter. -/
def Inv (s : SysState) : Prop :=
  (∀ q ∈ s.store, statusLegal q.2.status) ∧
  (s.procs.map ProcState.job_id).Nodup ∧
  (∀ (i : ℕ) (p : ProcState), s.procs[i]? = some p →
    ∀ r, storeGet s.store p.job_id = some r → pcStatus p.pc r.status)

/-! ## The one-step status transition relation -/

/-- The legal forward edges of the job state machine. -/
def statusEdge (a b : String) : Prop :=
  (a = "queued" ∧ b = "processing") ∨
  ((a = "processing" ∧ b = "complete") ∨ (a = "processing" ∧ b = "error"))

/-- What one event may do to the record of a fixed job id: a record that
appears is `queued`, a record that persists keeps its status or moves
along one legal edge. -/
def stepObs (store store' : JobStore) (id : JobId) : Prop :=
  (∀ r', storeGet store id = none → storeGet store' id = some r' →
    r'.status = "queued") ∧
  (∀ r r', storeGet store id = some r → storeGet store' id = some r' →
    r'.status = r.status ∨ statusEdge r.status r'.status)

/-! ## Store lemmas -/

theorem storeGet_set_self {s : JobStore} {id : JobId} {r0 : JobRecord}
    (h : storeGet s id = some r0) (r : JobRecord) :
    storeGet (storeSet s id r) id = some r := by
  induction s with
  | nil => simp [storeGet] at h
  | cons q rest ih =>
    obtain ⟨k, v⟩ := q
    by_cases hk : k = id
    · simp [storeGet, storeSet, hk]
    · simp [storeGet, storeSet, hk] at h ⊢
      exact ih h

theorem storeGet_set_none {s : JobStore} {id : JobId}
    (h : storeGet s id = none) (r : JobRecord) :
    storeGet (storeSet s id r) id = none := by
  induction s with
  | nil => simp [storeGet, storeSet]
  | cons q rest ih =>
    obtain ⟨k, v⟩ := q
    by_cases hk : k = id
    · simp [storeGet, hk] at h
    · simp [storeGet, storeSet, hk] at h ⊢
      exact ih h

theorem storeGet_set_ne {s : JobStore} {id id' : JobId} (h : id' ≠ id)
    (r : JobRecord) : storeGet (storeSet s id r) id' = storeGet s id' := by
  induction s with
  | nil => simp [storeSet]
  | cons q rest ih =>
    obtain ⟨k, v⟩ := q
    by_cases hk : k = id
    · subst hk
      simp [storeGet, storeSet, Ne.symm h, ih]
    · by_cases hk' : k = id'
      · simp [storeGet, storeSet, hk, hk', h]
      · simp [storeGet, storeSet, hk, hk', ih]

theorem storeGet_remove_self (s : JobStore) (id : JobId) :
    storeGet (storeRemove s id) id = none := by
  induction s with
  | nil => simp [storeRemove, storeGet]
  | cons q rest ih =>
    obtain ⟨k, v⟩ := q
    by_cases hk : k = id
    · simp [storeRemove, hk, ih]
    · simp [storeRemove, storeGet, hk, ih]

theorem storeGet_remove_ne {s : JobStore} {id id' : JobId} (h : id' ≠ id) :
    storeGet (storeRemove s id) id' = storeGet s id' := by
  induction s with
  | nil => simp [storeRemove]
  | cons q rest ih =>
    obtain ⟨k, v⟩ := q
    by_cases hk : k = id
    · subst hk
      simp [storeRemove, storeGet, Ne.symm h, ih]
    · by_cases hk' : k = id'
      · simp [storeRemove, storeGet, hk, hk', h]
      · simp [storeRemove, storeGet, hk, hk', ih]

theorem mem_storeSet {s : JobStore} {id : JobId} {r : JobRecord}
    {q : JobId × JobRecord} (h : q ∈ storeSet s id r) : q ∈ s ∨ q.2 = r := by
  induction s with
  | nil => simp [storeSet] at h
  | cons p rest ih =>
    obtain ⟨k, v⟩ := p
    by_cases hk : k = id
    · simp [storeSet, hk] at h
      rcases h with h | h
      · right
        rw [h]
      · rcases ih h with h' | h'
        · exact Or.inl (List.mem_cons_of_mem _ h')
        · exact Or.inr h'
    · simp [storeSet, hk] at h
      rcases h with h | h
      · exact Or.inl (by simp [h])
      · rcases ih h with h' | h'
        · exact Or.inl (List.mem_cons_of_mem _ h')
        · exact Or.inr h'

theorem mem_storeRemove {s : JobStore} {id : JobId} {q : JobId × JobRecord}
    (h : q ∈ storeRemove s id) : q ∈ s := by
  induction s with
  | nil => simp [storeRemove] at h
  | cons p rest ih =>
    obtain ⟨k, v⟩ := p
    by_cases hk : k = id
    · simp [storeRemove, hk] at h
      exact List.mem_cons_of_mem _ (ih h)
    · simp [storeRemove, hk] at h
      rcases h with h | h
      · simp [h]
      · exact List.mem_cons_of_mem _ (ih h)

theorem storeGet_mem {s : JobStore} {id : JobId} {r : JobRecord}
    (h : storeGet s id = some r) : (id, r) ∈ s := by
  induction s with
  | nil => simp [storeGet] at h
  | cons p rest ih =>
    obtain ⟨k, v⟩ := p
    by_cases hk : k = id
    · simp [storeGet, hk] at h
      simp [hk, h]
    · simp [storeGet, hk] at h
      exact List.mem_cons_of_mem _ (ih h)

theorem set_same {α : Type} : ∀ (l : List α) (i : ℕ) (a : α),
    l[i]? = some a → l.set i a = l
  | [], i, a, h => by simp at h
  | b :: l, 0, a, h => by simp_all
  | b :: l, i + 1, a, h => by
    simp only [List.getElem?_cons_succ] at h
    simp [set_same l i a h]

theorem lt_of_getElem?_some {α : Type} {l : List α} {i : ℕ} {a : α}
    (h : l[i]? = some a) : i < l.length := by
  by_contra hcon
  push_neg at hcon
  rw [List.getElem?_eq_none hcon] at h
  cases h

theorem ids_set {procs : List ProcState} {i : ℕ} {p p2 : ProcState}
    (hp : procs[i]? = some p) (hjob : p2.job_id = p.job_id) :
    (procs.set i p2).map ProcState.job_id = procs.map ProcState.job_id := by
  rw [List.map_set, hjob]
  exact set_same _ _ _ (by simp [hp])

theorem nodup_ids_set {procs : List ProcState} {i : ℕ} {p p2 : ProcState}
    (hp : procs[i]? = some p) (hjob : p2.job_id = p.job_id)
    (hnd : (procs.map ProcState.job_id).Nodup) :
    ((procs.set i p2).map ProcState.job_id).Nodup := by
  rw [ids_set hp hjob]
  exact hnd

theorem procs_id_inj {procs : List ProcState}
    (hnd : (procs.map ProcState.job_id).Nodup) {i j : ℕ} {p q : ProcState}
    (hi : procs[i]? = some p) (hj : procs[j]? = some q)
    (hpq : p.job_id = q.job_id) : i = j := by
  have hi' : (procs.map ProcState.job_id)[i]? = some p.job_id := by simp [hi]
  have hj' : (procs.map ProcState.job_id)[j]? = some q.job_id := by simp [hj]
  have hlen : i < (procs.map ProcState.job_id).length := by
    by_contra hcon
    push_neg at hcon
    rw [List.getElem?_eq_none hcon] at hi'
    cases hi'
  exact List.getElem?_inj hlen hnd (by rw [hi', hj', hpq])

theorem statusLegal_storeSet {store : JobStore}
    (hS : ∀ q ∈ store, statusLegal q.2.status) {id : JobId} {r' : JobRecord}
    (hr' : statusLegal r'.status) :
    ∀ q ∈ storeSet store id r', statusLegal q.2.status := by
  intro q hq
  rcases mem_storeSet hq with h | h
  · exact hS q h
  · rw [h]
    exact hr'

theorem consistent_set {store : JobStore} {procs : List ProcState} {i : ℕ}
    {p p2 : ProcState} {r' : JobRecord}
    (hp : procs[i]? = some p)
    (hnd : (procs.map ProcState.job_id).Nodup)
    (hcons : ∀ (j : ℕ) (q : ProcState), procs[j]? = some q →
      ∀ rr, storeGet store q.job_id = some rr → pcStatus q.pc rr.status)
    (hjob : p2.job_id = p.job_id)
    (hnew : pcStatus p2.pc r'.status) :
    ∀ (j : ℕ) (q : ProcState), (procs.set i p2)[j]? = some q → ∀ rr,
      storeGet (storeSet store p.job_id r') q.job_id = some rr →
      pcStatus q.pc rr.status := by
  intro j q hq rr hrr
  by_cases hij : i = j
  · subst hij
    have hlen : i < procs.length := lt_of_getElem?_some hp
    rw [List.getElem?_set, if_pos rfl, if_pos hlen] at hq
    cases hq
    rw [hjob] at hrr
    cases hget0 : storeGet store p.job_id with
    | none => rw [storeGet_set_none hget0] at hrr; cases hrr
    | some r0 =>
      rw [storeGet_set_self hget0] at hrr
      cases hrr
      exact hnew
  · rw [List.getElem?_set_ne hij] at hq
    have hne : q.job_id ≠ p.job_id := by
      intro hcon
      exact hij (procs_id_inj hnd hp hq hcon.symm)
    rw [storeGet_set_ne hne] at hrr
    exact hcons j q hq rr hrr

theorem consistent_keep {store : JobStore} {procs : List ProcState} {i : ℕ}
    {p p2 : ProcState}
    (hp : procs[i]? = some p)
    (hcons : ∀ (j : ℕ) (q : ProcState), procs[j]? = some q →
      ∀ rr, storeGet store q.job_id = some rr → pcStatus q.pc rr.status)
    (hjob : p2.job_id = p.job_id)
    (hnew : ∀ rr, storeGet store p.job_id = some rr → pcStatus p2.pc rr.status) :
    ∀ (j : ℕ) (q : ProcState), (procs.set i p2)[j]? = some q → ∀ rr,
      storeGet store q.job_id = some rr → pcStatus q.pc rr.status := by
  intro j q hq rr hrr
  by_cases hij : i = j
  · subst hij
    have hlen : i < procs.length := lt_of_getElem?_some hp
    rw [List.getElem?_set, if_pos rfl, if_pos hlen] at hq
    cases hq
    rw [hjob] at hrr
    exact hnew rr hrr
  · rw [List.getElem?_set_ne hij] at hq
    exact hcons j q hq rr hrr

theorem inv_init : Inv initState := by
  refine ⟨?_, ?_, ?_⟩
  · intro q hq
    simp [initState] at hq
  · simp [initState]
  · intro i p hp
    simp [initState] at hp

theorem inv_step (s : SysState) (e : Event) (h : Inv s) : Inv (step s e) := by
  obtain ⟨hS, hnd, hcons⟩ := h
  cases e with
  | submit id usd_path usd_fix env =>
    by_cases hg : storeGet s.store id = none ∧ ∀ p ∈ s.procs, p.job_id ≠ id
    · simp only [step, if_pos hg]
      refine ⟨?_, ?_, ?_⟩
      · intro q hq
        rcases List.mem_cons.mp hq with hq | hq
        · rw [hq]
          exact Or.inl rfl
        · exact hS q hq
      · rw [List.map_append, List.nodup_append]
        refine ⟨hnd, by simp, ?_⟩
        intro a ha
        simp only [List.map_cons, List.map_nil, List.mem_singleton]
        rcases List.mem_map.mp ha with ⟨p, hp, hpa⟩
        intro hcon
        exact hg.2 p hp (hpa.trans hcon)
      · intro j q hq r hr
        by_cases hjl : j < s.procs.length
        · rw [List.getElem?_append, if_pos hjl] at hq
          have hne : id ≠ q.job_id :=
            fun hcon => hg.2 q (List.getElem?_mem hq) hcon.symm
          rw [show storeGet ((id, _) :: s.store) q.job_id = storeGet s.store q.job_id
            from by simp [storeGet, hne]] at hr
          exact hcons j q hq r hr
        · rw [List.getElem?_append, if_neg hjl] at hq
          rcases Nat.lt_or_ge (j - s.procs.length) 1 with hj1 | hj1
          · interval_cases hj0 : j - s.procs.length
            · simp at hq
              cases hq
              simp only [storeGet, if_pos rfl] at hr
              cases hr
              rfl
          · rw [List.getElem?_eq_none (by simpa using hj1)] at hq
            cases hq
    · simp only [step, if_neg hg]
      exact ⟨hS, hnd, hcons⟩
  | deleteJob id =>
    cases hget : storeGet s.store id with
    | none =>
      simp only [step, hget]
      exact ⟨hS, hnd, hcons⟩
    | some r =>
      simp only [step, hget]
      refine ⟨?_, hnd, ?_⟩
      · intro q hq
        exact hS q (mem_storeRemove hq)
      · intro j q hq rr hrr
        by_cases hqe : q.job_id = id
        · rw [hqe, storeGet_remove_self] at hrr
          cases hrr
        · rw [storeGet_remove_ne hqe] at hrr
          exact hcons j q hq rr hrr
  | procTick i =>
    cases hp : s.procs[i]? with
    | none =>
      simp only [step, hp]
      exact ⟨hS, hnd, hcons⟩
    | some p =>
      simp only [step, hp]
      cases hpc : p.pc with
      | pSetProcessing =>
        cases hget : storeGet s.store p.job_id with
        | none =>
          refine ⟨?_, ?_, ?_⟩ <;> simp only [procStep, hpc, hget]
          · exact hS
          · exact nodup_ids_set hp rfl hnd
          · exact consistent_keep hp hcons rfl
              (fun rr hrr => by rw [hget] at hrr; cases hrr)
        | some r =>
          refine ⟨?_, ?_, ?_⟩ <;> simp only [procStep, hpc, hget]
          · exact statusLegal_storeSet hS (Or.inr (Or.inl rfl))
          · exact nodup_ids_set hp rfl hnd
          · exact consistent_set hp hnd hcons rfl rfl
      | pSetStartedAt =>
        cases hget : storeGet s.store p.job_id with
        | none =>
          refine ⟨?_, ?_, ?_⟩ <;> simp only [procStep, hpc, hget]
          · exact hS
          · exact nodup_ids_set hp rfl hnd
          · exact consistent_keep hp hcons rfl
              (fun rr hrr => by rw [hget] at hrr; cases hrr)
        | some r =>
          have hst : r.status = "processing" := by
            have := hcons i p hp r hget
            rwa [hpc] at this
          refine ⟨?_, ?_, ?_⟩ <;> simp only [procStep, hpc, hget]
          · exact statusLegal_storeSet hS
              (by rw [show ({ r with started_at := some s.clock } : JobRecord).status
                  = r.status from rfl, hst]; exact Or.inr (Or.inl rfl))
          · exact nodup_ids_set hp rfl hnd
          · exact consistent_set hp hnd hcons rfl
              (by show r.status = "processing"; exact hst)
      | pRun =>
        have hrun : ∀ p2 : ProcState, p2.job_id = p.job_id →
            (p2.pc = .eSetStatus ∨ p2.pc = .pSetComplete) →
            (∀ (j : ℕ) (q : ProcState), (s.procs.set i p2)[j]? = some q → ∀ rr,
              storeGet s.store q.job_id = some rr → pcStatus q.pc rr.status) := by
          intro p2 hjob hpc2
          refine consistent_keep hp hcons hjob (fun rr hrr => ?_)
          have := hcons i p hp rr hrr
          rw [hpc] at this
          rcases hpc2 with h2 | h2 <;> rw [h2] <;> exact this
        cases hfix : p.usd_fix with
        | error e =>
          refine ⟨?_, ?_, ?_⟩ <;> simp only [procStep, hpc, hfix]
          · exact hS
          · exact nodup_ids_set hp rfl hnd
          · exact hrun _ rfl (Or.inl rfl)
        | ok u =>
          cases hana : analyze_solar_scene p.env p.usd_path with
          | error e =>
            refine ⟨?_, ?_, ?_⟩ <;> simp only [procStep, hpc, hfix, hana]
            · exact hS
            · exact nodup_ids_set hp rfl hnd
            · exact hrun _ rfl (Or.inl rfl)
          | ok rp =>
            refine ⟨?_, ?_, ?_⟩ <;> simp only [procStep, hpc, hfix, hana]
            · exact hS
            · exact nodup_ids_set hp rfl hnd
            · exact hrun _ rfl (Or.inr rfl)
      | pSetComplete =>
        cases hget : storeGet s.store p.job_id with
        | none =>
          refine ⟨?_, ?_, ?_⟩ <;> simp only [procStep, hpc, hget]
          · exact hS
          · exact nodup_ids_set hp rfl hnd
          · exact consistent_keep hp hcons rfl
              (fun rr hrr => by rw [hget] at hrr; cases hrr)
        | some r =>
          refine ⟨?_, ?_, ?_⟩ <;> simp only [procStep, hpc, hget]
          · exact statusLegal_storeSet hS (Or.inr (Or.inr (Or.inl rfl)))
          · exact nodup_ids_set hp rfl hnd
          · exact consistent_set hp hnd hcons rfl rfl
      | pSetResultPath =>
        cases hget : storeGet s.store p.job_id with
        | none =>
          refine ⟨?_, ?_, ?_⟩ <;> simp only [procStep, hpc, hget]
          · exact hS
          · exact nodup_ids_set hp rfl hnd
          · exact consistent_keep hp hcons rfl
              (fun rr hrr => by rw [hget] at hrr; cases hrr)
        | some r =>
          have hst : r.status = "complete" := by
            have := hcons i p hp r hget
            rwa [hpc] at this
          refine ⟨?_, ?_, ?_⟩ <;> simp only [procStep, hpc, hget]
          · exact statusLegal_storeSet hS
              (by rw [show ({ r with result_path := p.pending_result } : JobRecord).status
                  = r.status from rfl, hst]; exact Or.inr (Or.inr (Or.inl rfl)))
          · exact nodup_ids_set hp rfl hnd
          · exact consistent_set hp hnd hcons rfl
              (by show r.status = "complete"; exact hst)
      | pSetCompletedAt =>
        cases hget : storeGet s.store p.job_id with
        | none =>
          refine ⟨?_, ?_, ?_⟩ <;> simp only [procStep, hpc, hget]
          · exact hS
          · exact nodup_ids_set hp rfl hnd
          · exact consistent_keep hp hcons rfl
              (fun rr hrr => by rw [hget] at hrr; cases hrr)
        | some r =>
          have hst : r.status = "complete" := by
            have := hcons i p hp r hget
            rwa [hpc] at this
          refine ⟨?_, ?_, ?_⟩ <;> simp only [procStep, hpc, hget]
          · exact statusLegal_storeSet hS
              (by rw [show ({ r with completed_at := some s.clock } : JobRecord).status
                  = r.status from rfl, hst]; exact Or.inr (Or.inr (Or.inl rfl)))
          · exact nodup_ids_set hp rfl hnd
          · exact consistent_set hp hnd hcons rfl
              (by show r.status = "complete" ∨ r.status = "error"; exact Or.inl hst)
      | eSetStatus =>
        cases hget : storeGet s.store p.job_id with
        | none =>
          refine ⟨?_, ?_, ?_⟩ <;> simp only [procStep, hpc, hget]
          · exact hS
          · exact nodup_ids_set hp rfl hnd
          · exact consistent_keep hp hcons rfl
              (fun rr hrr => by rw [hget] at hrr; cases hrr)
        | some r =>
          refine ⟨?_, ?_, ?_⟩ <;> simp only [procStep, hpc, hget]
          · exact statusLegal_storeSet hS (Or.inr (Or.inr (Or.inr rfl)))
          · exact nodup_ids_set hp rfl hnd
          · exact consistent_set hp hnd hcons rfl rfl
      | eSetError =>
        cases hget : storeGet s.store p.job_id with
        | none =>
          refine ⟨?_, ?_, ?_⟩ <;> simp only [procStep, hpc, hget]
          · exact hS
          · exact nodup_ids_set hp rfl hnd
          · exact consistent_keep hp hcons rfl
              (fun rr hrr => by rw [hget] at hrr; cases hrr)
        | some r =>
          have hst : r.status = "error" := by
            have := hcons i p hp r hget
            rwa [hpc] at this
          refine ⟨?_, ?_, ?_⟩ <;> simp only [procStep, hpc, hget]
          · exact statusLegal_storeSet hS
              (by rw [show ({ r with error := some p.pending_msg } : JobRecord).status
                  = r.status from rfl, hst]; exact Or.inr (Or.inr (Or.inr rfl)))
          · exact nodup_ids_set hp rfl hnd
          · exact consistent_set hp hnd hcons rfl
              (by show r.status = "error"; exact hst)
      | eSetTraceback =>
        cases hget : storeGet s.store p.job_id with
        | none =>
          refine ⟨?_, ?_, ?_⟩ <;> simp only [procStep, hpc, hget]
          · exact hS
          · exact nodup_ids_set hp rfl hnd
          · exact consistent_keep hp hcons rfl
              (fun rr hrr => by rw [hget] at hrr; cases hrr)
        | some r =>
          have hst : r.status = "error" := by
            have := hcons i p hp r hget
            rwa [hpc] at this
          refine ⟨?_, ?_, ?_⟩ <;> simp only [procStep, hpc, hget]
          · exact statusLegal_storeSet hS
              (by rw [show ({ r with
                    traceback := some (tracebackText p.pending_msg) } : JobRecord).status
                  = r.status from rfl, hst]; exact Or.inr (Or.inr (Or.inr rfl)))
          · exact nodup_ids_set hp rfl hnd
          · exact consistent_set hp hnd hcons rfl
              (by show r.status = "complete" ∨ r.status = "error"; exact Or.inr hst)
      | done =>
        refine ⟨?_, ?_, ?_⟩ <;> simp only [procStep, hpc]
        · exact hS
        · exact nodup_ids_set hp rfl hnd
        · exact consistent_keep hp hcons rfl (fun rr hrr => hcons i p hp rr hrr)
      | crashed =>
        refine ⟨?_, ?_, ?_⟩ <;> simp only [procStep, hpc]
        · exact hS
        · exact nodup_ids_set hp rfl hnd
        · exact consistent_keep hp hcons rfl (fun rr hrr => hcons i p hp rr hrr)

theorem inv_foldl : ∀ (es : List Event) (s : SysState), Inv s → Inv (es.foldl step s)
  | [], _, h => h
  | e :: es, s, h => inv_foldl es (step s e) (inv_step s e h)

theorem inv_run (es : List Event) : Inv (run es) := inv_foldl es initState inv_init

theorem stepObs_refl (store : JobStore) (id : JobId) : stepObs store store id := by
  constructor
  · intro r' h1 h2
    rw [h1] at h2
    cases h2
  · intro r r' h1 h2
    rw [h1] at h2
    cases h2
    exact Or.inl rfl

theorem stepObs_of_eq {store store' : JobStore} {id : JobId}
    (h : storeGet store' id = storeGet store id) : stepObs store store' id := by
  constructor
  · intro r' h1 h2
    rw [h, h1] at h2
    cases h2
  · intro r r' h1 h2
    rw [h, h1] at h2
    cases h2
    exact Or.inl rfl

theorem stepObs_set {store : JobStore} {id : JobId} {r0 rr : JobRecord}
    (hget : storeGet store id = some r0)
    (hstat : rr.status = r0.status ∨ statusEdge r0.status rr.status) :
    stepObs store (storeSet store id rr) id := by
  constructor
  · intro r' h1 h2
    rw [h1] at hget
    cases hget
  · intro r r' h1 h2
    have hr : r = r0 := by
      rw [h1] at hget
      exact Option.some.inj hget
    subst hr
    rw [storeGet_set_self h1 rr] at h2
    cases h2
    exact hstat

theorem step_status_obs (s : SysState) (hInv : Inv s) (e : Event) (id : JobId) :
    stepObs s.store (step s e).store id := by
  obtain ⟨hS, hnd, hcons⟩ := hInv
  cases e with
  | submit id' usd_path usd_fix env =>
    by_cases hg : storeGet s.store id' = none ∧ ∀ p ∈ s.procs, p.job_id ≠ id'
    · simp only [step, if_pos hg]
      by_cases hid : id' = id
      · subst hid
        constructor
        · intro r' h1 h2
          simp only [storeGet, if_pos rfl] at h2
          cases h2
          rfl
        · intro r r' h1 h2
          rw [hg.1] at h1
          cases h1
      · apply stepObs_of_eq
        simp [storeGet, hid]
    · simp only [step, if_neg hg]
      exact stepObs_refl _ _
  | deleteJob id' =>
    cases hget : storeGet s.store id' with
    | none =>
      simp only [step, hget]
      exact stepObs_refl _ _
    | some r =>
      simp only [step, hget]
      by_cases hid : id = id'
      · subst hid
        constructor
        · intro r' h1 h2
          rw [storeGet_remove_self] at h2
          cases h2
        · intro r0 r' h1 h2
          rw [storeGet_remove_self] at h2
          cases h2
      · exact stepObs_of_eq (storeGet_remove_ne hid)
  | procTick i =>
    cases hp : s.procs[i]? with
    | none =>
      simp only [step, hp]
      exact stepObs_refl _ _
    | some p =>
      simp only [step, hp]
      cases hpc : p.pc with
      | pSetProcessing =>
        cases hget : storeGet s.store p.job_id with
        | none =>
          simp only [procStep, hpc, hget]
          exact stepObs_refl _ _
        | some r =>
          simp only [procStep, hpc, hget]
          by_cases hid : p.job_id = id
          · subst hid
            refine stepObs_set hget (Or.inr ?_)
            have hq := hcons i p hp r hget
            rw [hpc] at hq
            exact Or.inl ⟨hq, rfl⟩
          · exact stepObs_of_eq (storeGet_set_ne (fun hcon => hid hcon.symm) _)
      | pSetStartedAt =>
        cases hget : storeGet s.store p.job_id with
        | none =>
          simp only [procStep, hpc, hget]
          exact stepObs_refl _ _
        | some r =>
          simp only [procStep, hpc, hget]
          by_cases hid : p.job_id = id
          · subst hid
            exact stepObs_set hget (Or.inl rfl)
          · exact stepObs_of_eq (storeGet_set_ne (fun hcon => hid hcon.symm) _)
      | pRun =>
        cases hfix : p.usd_fix with
        | error e0 =>
          simp only [procStep, hpc, hfix]
          exact stepObs_refl _ _
        | ok u =>
          cases hana : analyze_solar_scene p.env p.usd_path with
          | error e0 =>
            simp only [procStep, hpc, hfix, hana]
            exact stepObs_refl _ _
          | ok rp =>
            simp only [procStep, hpc, hfix, hana]
            exact stepObs_refl _ _
      | pSetComplete =>
        cases hget : storeGet s.store p.job_id with
        | none =>
          simp only [procStep, hpc, hget]
          exact stepObs_refl _ _
        | some r =>
          simp only [procStep, hpc, hget]
          by_cases hid : p.job_id = id
          · subst hid
            refine stepObs_set hget (Or.inr (Or.inr (Or.inl ?_)))
            have hq := hcons i p hp r hget
            rw [hpc] at hq
            exact ⟨hq, rfl⟩
          · exact stepObs_of_eq (storeGet_set_ne (fun hcon => hid hcon.symm) _)
      | pSetResultPath =>
        cases hget : storeGet s.store p.job_id with
        | none =>
          simp only [procStep, hpc, hget]
          exact stepObs_refl _ _
        | some r =>
          simp only [procStep, hpc, hget]
          by_cases hid : p.job_id = id
          · subst hid
            exact stepObs_set hget (Or.inl rfl)
          · exact stepObs_of_eq (storeGet_set_ne (fun hcon => hid hcon.symm) _)
      | pSetCompletedAt =>
        cases hget : storeGet s.store p.job_id with
        | none =>
          simp only [procStep, hpc, hget]
          exact stepObs_refl _ _
        | some r =>
          simp only [procStep, hpc, hget]
          by_cases hid : p.job_id = id
          · subst hid
            exact stepObs_set hget (Or.inl rfl)
          · exact stepObs_of_eq (storeGet_set_ne (fun hcon => hid hcon.symm) _)
      | eSetStatus =>
        cases hget : storeGet s.store p.job_id with
        | none =>
          simp only [procStep, hpc, hget]
          exact stepObs_refl _ _
        | some r =>
          simp only [procStep, hpc, hget]
          by_cases hid : p.job_id = id
          · subst hid
            refine stepObs_set hget (Or.inr (Or.inr (Or.inr ?_)))
            have hq := hcons i p hp r hget
            rw [hpc] at hq
            exact ⟨hq, rfl⟩
          · exact stepObs_of_eq (storeGet_set_ne (fun hcon => hid hcon.symm) _)
      | eSetError =>
        cases hget : storeGet s.store p.job_id with
        | none =>
          simp only [procStep, hpc, hget]
          exact stepObs_refl _ _
        | some r =>
          simp only [procStep, hpc, hget]
          by_cases hid : p.job_id = id
          · subst hid
            exact stepObs_set hget (Or.inl rfl)
          · exact stepObs_of_eq (storeGet_set_ne (fun hcon => hid hcon.symm) _)
      | eSetTraceback =>
        cases hget : storeGet s.store p.job_id with
        | none =>
          simp only [procStep, hpc, hget]
          exact stepObs_refl _ _
        | some r =>
          simp only [procStep, hpc, hget]
          by_cases hid : p.job_id = id
          · subst hid
            exact stepObs_set hget (Or.inl rfl)
          · exact stepObs_of_eq (storeGet_set_ne (fun hcon => hid hcon.symm) _)
      | done =>
        simp only [procStep, hpc]
        exact stepObs_refl _ _
      | crashed =>
        simp only [procStep, hpc]
        exact stepObs_refl _ _

theorem run_append_event (es : List Event) (e : Event) :
    run (es ++ [e]) = step (run es) e := by
  rw [run, List.foldl_append]
  rfl

/-! ## Counting lemma for the health endpoint -/

theorem length_eq_four_counts (l : JobStore)
    (h : ∀ q ∈ l, statusLegal q.2.status) :
    l.length = l.countP (fun q => q.2.status = "queued")
      + l.countP (fun q => q.2.status = "processing")
      + l.countP (fun q => q.2.status = "complete")
      + l.countP (fun q => q.2.status = "error") := by
  induction l with
  | nil => simp
  | cons q rest ih =>
    have hq := h q (List.mem_cons_self _ _)
    have hrest := ih (fun p hp => h p (List.mem_cons_of_mem _ hp))
    simp only [List.length_cons, List.countP_cons, hrest]
    rcases hq with h1 | h1 | h1 | h1 <;> simp [h1] <;> omega

/-! ## Color mapping lemmas -/

theorem clamp_idem (x : ℚ) : max 0 (min 1 (max 0 (min 1 x))) = max 0 (min 1 x) := by
  rw [min_eq_right (max_le (by norm_num) (min_le_left 1 x)),
      max_eq_right (le_max_left 0 (min 1 x))]

theorem ecotect_of_val_mid {x : ℚ} (h0 : 0 < x) (h1 : x < 1) :
    ecotect_of_val x = segLerp x := by
  have hn0 : ¬ x ≤ 0 := not_le.mpr h0
  have hn1 : ¬ (1:ℚ) ≤ x := not_le.mpr h1
  have hfloor : ⌊x * 10⌋ < 10 := by
    rw [Int.floor_lt]
    push_cast
    nlinarith
  have hlen : ecotect_colors.length - 1 = 10 := rfl
  simp only [ecotect_of_val, segLerp, hlen, Nat.cast_ofNat]
  rw [if_neg hn0, if_neg hn1, if_neg (not_le.mpr hfloor)]

theorem stops_inUnit (n : ℕ) : inUnit (ecotect_colors.getD n (0, 0, 0)) := by
  by_cases h : n < 11
  · interval_cases n <;> norm_num [inUnit, ecotect_colors]
  · rw [List.getD_eq_default _ _ (by push_neg at h; exact h)]
    norm_num [inUnit]

theorem lerp_mem_unit {a b t : ℚ} (ha0 : 0 ≤ a) (ha1 : a ≤ 1) (hb0 : 0 ≤ b)
    (hb1 : b ≤ 1) (ht0 : 0 ≤ t) (ht1 : t ≤ 1) :
    0 ≤ a + t * (b - a) ∧ a + t * (b - a) ≤ 1 := by
  constructor <;> nlinarith

theorem ecotect_of_val_in_unit (val : ℚ) : inUnit (ecotect_of_val val) := by
  by_cases hv0 : val ≤ 0
  · rw [ecotect_of_val, if_pos hv0]
    exact stops_inUnit 0
  · by_cases hv1 : (1:ℚ) ≤ val
    · rw [ecotect_of_val, if_neg hv0, if_pos hv1]
      exact stops_inUnit _
    · by_cases hg : ((ecotect_colors.length - 1 : ℕ) : ℤ)
          ≤ ⌊val * ((ecotect_colors.length - 1 : ℕ) : ℚ)⌋
      · rw [ecotect_of_val, if_neg hv0, if_neg hv1, if_pos hg]
        exact stops_inUnit _
      · rw [ecotect_of_val, if_neg hv0, if_neg hv1, if_neg hg]
        have ht0 : 0 ≤ val * ((ecotect_colors.length - 1 : ℕ) : ℚ)
            - ((⌊val * ((ecotect_colors.length - 1 : ℕ) : ℚ)⌋ : ℤ) : ℚ) := by
          have := Int.floor_le (val * ((ecotect_colors.length - 1 : ℕ) : ℚ))
          linarith
        have ht1 : val * ((ecotect_colors.length - 1 : ℕ) : ℚ)
            - ((⌊val * ((ecotect_colors.length - 1 : ℕ) : ℚ)⌋ : ℤ) : ℚ) ≤ 1 := by
          have := Int.lt_floor_add_one (val * ((ecotect_colors.length - 1 : ℕ) : ℚ))
          linarith
        obtain ⟨a0, a1, b0, b1, c0, c1⟩ :=
          stops_inUnit (⌊val * ((ecotect_colors.length - 1 : ℕ) : ℚ)⌋.toNat)
        obtain ⟨a0', a1', b0', b1', c0', c1'⟩ :=
          stops_inUnit (⌊val * ((ecotect_colors.length - 1 : ℕ) : ℚ)⌋.toNat + 1)
        exact ⟨(lerp_mem_unit a0 a1 a0' a1' ht0 ht1).1,
               (lerp_mem_unit a0 a1 a0' a1' ht0 ht1).2,
               (lerp_mem_unit b0 b1 b0' b1' ht0 ht1).1,
               (lerp_mem_unit b0 b1 b0' b1' ht0 ht1).2,
               (lerp_mem_unit c0 c1 c0' c1' ht0 ht1).1,
               (lerp_mem_unit c0 c1 c0' c1' ht0 ht1).2⟩

/-! ## Claim theorems -/

/-- Claim C1 (evidence of the code bug): a job whose scene has a NaN in
its face-center array fails the engine validation with a message naming
the offending array, but `analyze_solar_scene` swallows the failure and
returns `None`, and `process_job` then records the job as `complete`
with `result_path = None` and `error = None`.  The job never reaches
status `error`, contradicting the claim. -/
theorem nan_scene_job_marked_complete :
    run_optix_analysis engNaN sceneNaN
      = Except.error "Invalid face_centers: contains NaN or Inf" ∧
    analyze_solar_scene envNaN "scene.usda" = Except.ok none ∧
    (storeGet (run esC1).store "j1").map JobRecord.status = some "complete" ∧
    (storeGet (run esC1).store "j1").map JobRecord.error = some none :=
  ⟨by decide, by decide, by decide, by decide⟩

/-- Claim C2 (evidence of the code bug): the same failed-pipeline job is
a stable store state with `status = "complete"` and `result_path = None`,
violating the claimed invariant that `result_path` is non-null exactly on
`complete` records. -/
theorem complete_job_with_null_result_path :
    (storeGet (run esC1).store "j1").map JobRecord.status = some "complete" ∧
    (storeGet (run esC1).store "j1").map JobRecord.result_path = some none :=
  ⟨by decide, by decide⟩

/-- Claim C3: across any one event of the server, a job record that
appears carries status `queued`, and a record that persists either keeps
its status or moves along one forward edge `queued → processing`,
`processing → complete`, `processing → error`.  In particular no step
skips `processing`, no step moves backward, and `complete`/`error` are
terminal. -/
theorem job_status_monotone (es : List Event) (e : Event) (id : JobId) :
    (∀ r', storeGet (run es).store id = none →
      storeGet (run (es ++ [e])).store id = some r' → r'.status = "queued") ∧
    (∀ r r', storeGet (run es).store id = some r →
      storeGet (run (es ++ [e])).store id = some r' →
      r'.status = r.status ∨ statusEdge r.status r'.status) := by
  rw [run_append_event]
  exact step_status_obs (run es) (inv_run es) e id

/-- Witness for C3 at a concrete trace: submission creates job `w` as
`queued`, and the processor's first statement moves it along an edge. -/
theorem job_status_monotone_witness :
    recW.status = "queued" ∧
    (recW2.status = recW.status ∨ statusEdge recW.status recW2.status) :=
  ⟨(job_status_monotone [] (.submit "w" "scene.usda" (.ok ()) envOK) "w").1 recW
      (by decide) (by decide),
   (job_status_monotone esW (.procTick 0) "w").2 recW recW2 (by decide) (by decide)⟩

/-- Claim C4 (evidence of the code bug): deleting job `j2` while its
processor is at the pipeline stage makes the processor raise `KeyError`
inside the `try` body and again inside the failure-recording `except`
branch, so the task ends `crashed` (an unhandled exception); subsequent
status and result queries for the id report not-found. -/
theorem delete_during_processing_crashes_processor :
    (run esC4).procs.map ProcState.pc = [PC.crashed] ∧
    get_status (run esC4).store "j2" = StatusResponse.notFound "j2" ∧
    get_result (run esC4).store (fun _ => true) "j2" = ResultResponse.notFound404 :=
  ⟨by decide, by decide, by decide⟩

/-- Claim C5: the result endpoint returns 404 on an unknown id, a 400
state error carrying the current status (and no payload) when the job is
not `complete`, a 500 error when the job is `complete` but its result
file is absent (including a `None` result path, where
`os.path.exists(None)` raises and FastAPI answers 500), and a payload
exactly for a `complete` job whose result file exists. -/
theorem get_result_endpoint_spec (jobs : JobStore) (fe : String → Bool) (id : JobId) :
    (storeGet jobs id = none → get_result jobs fe id = .notFound404) ∧
    (∀ r, storeGet jobs id = some r → r.status ≠ "complete" →
      get_result jobs fe id = .stateError400 r.status) ∧
    (∀ r, storeGet jobs id = some r → r.status = "complete" → r.result_path = none →
      get_result jobs fe id = .serverError500) ∧
    (∀ r p, storeGet jobs id = some r → r.status = "complete" →
      r.result_path = some p → fe p = false →
      get_result jobs fe id = .serverError500) ∧
    (∀ p, get_result jobs fe id = .payload p →
      ∃ r, storeGet jobs id = some r ∧ r.status = "complete" ∧
        r.result_path = some p ∧ fe p = true) := by
  cases hget : storeGet jobs id with
  | none =>
    refine ⟨fun _ => by simp [get_result, hget], ?_, ?_, ?_, ?_⟩
    · intro r hr
      exact Option.noConfusion hr
    · intro r hr
      exact Option.noConfusion hr
    · intro r p hr
      exact Option.noConfusion hr
    · intro p hp
      simp [get_result, hget] at hp
  | some j =>
    have hj : ∀ r : JobRecord, some j = some r → r = j := by
      intro r hr
      exact (Option.some.inj hr).symm
    refine ⟨?_, ?_, ?_, ?_, ?_⟩
    · intro hnone
      exact Option.noConfusion hnone
    · intro r hr hne
      rw [hj r hr] at hne ⊢
      simp [get_result, hget, hne]
    · intro r hr hc hp
      rw [hj r hr] at hc hp
      simp [get_result, hget, hc, hp]
    · intro r p hr hc hp hfe
      rw [hj r hr] at hc hp
      simp [get_result, hget, hc, hp, hfe]
    · intro p hp
      by_cases hc : j.status = "complete"
      · cases hrp : j.result_path with
        | none => simp [get_result, hget, hc, hrp] at hp
        | some q =>
          by_cases hfe : fe q = true
          · simp [get_result, hget, hc, hrp, hfe] at hp
            exact ⟨j, rfl, hc, by rw [hrp, hp], by rw [← hp]; exact hfe⟩
          · simp [get_result, hget, hc, hrp,
              Bool.not_eq_true _ ▸ hfe] at hp
      · simp [get_result, hget, hc] at hp

/-- Witness for C5 on a concrete store: an unknown id, a queued job, a
complete job with a missing file, and a complete job with a present file. -/
theorem get_result_endpoint_spec_witness :
    get_result demoJobs demoFe "nope" = ResultResponse.notFound404 ∧
    get_result demoJobs demoFe "q1" = ResultResponse.stateError400 "queued" ∧
    get_result demoJobs demoFe "c1" = ResultResponse.serverError500 ∧
    (∃ r, storeGet demoJobs "c2" = some r ∧ r.status = "complete" ∧
      r.result_path = some "res.usda" ∧ demoFe "res.usda" = true) :=
  ⟨(get_result_endpoint_spec demoJobs demoFe "nope").1 (by decide),
   (get_result_endpoint_spec demoJobs demoFe "q1").2.1 recQ1 (by decide) (by decide),
   (get_result_endpoint_spec demoJobs demoFe "c1").2.2.2.1 recD1 "gone.usda"
     (by decide) (by decide) (by decide) (by decide),
   (get_result_endpoint_spec demoJobs demoFe "c2").2.2.2.2 "res.usda" (by decide)⟩

/-- Claim C6: the default (ecotect) mapping clamps its input to the unit
interval first, returns the first stop (0,0,1) for every input at most 0
and the last stop (1,1,0) for every input at least 1, linearly
interpolates each channel on the enclosing of the ten equal-width
segments for inputs strictly between 0 and 1, and is deterministic. -/
theorem ecotect_color_spec (x : ℚ) :
    ecotect_color x = ecotect_color (max 0 (min 1 x)) ∧
    (x ≤ 0 → ecotect_color x = (0, 0, 1)) ∧
    (1 ≤ x → ecotect_color x = (1, 1, 0)) ∧
    (0 < x → x < 1 → ecotect_color x = segLerp x) ∧
    (∀ y, y = x → ecotect_color y = ecotect_color x) := by
  refine ⟨?_, ?_, ?_, ?_, fun y hy => by rw [hy]⟩
  · rw [ecotect_color, ecotect_color, clamp_idem]
  · intro hx
    rw [ecotect_color, min_eq_right (hx.trans (by norm_num)), max_eq_left hx]
    norm_num [ecotect_of_val, ecotect_colors]
  · intro hx
    rw [ecotect_color, min_eq_left hx, max_eq_right (by norm_num : (0:ℚ) ≤ 1)]
    norm_num [ecotect_of_val, ecotect_colors]
  · intro h0 h1
    rw [ecotect_color, min_eq_right h1.le, max_eq_right h0.le]
    exact ecotect_of_val_mid h0 h1

/-- Witness for C6 at three concrete inputs. -/
theorem ecotect_color_spec_witness :
    ecotect_color (-2) = (0, 0, 1) ∧ ecotect_color 2 = (1, 1, 0) ∧
    ecotect_color ((1:ℚ)/2) = segLerp ((1:ℚ)/2) :=
  ⟨(ecotect_color_spec (-2)).2.1 (by norm_num),
   (ecotect_color_spec 2).2.2.1 (by norm_num),
   (ecotect_color_spec ((1:ℚ)/2)).2.2.2.1 (by norm_num) (by norm_num)⟩

/-- Claim C7: on a non-empty result sequence with equal maximum and
minimum, the normalization assigns 0.5 to every face, and the ecotect
branch then gives every face the same mid-mapping color. -/
theorem results_to_colors_const (results : List ℚ) (hne : results ≠ [])
    (heq : results.max? = results.min?) :
    normalize_results results = some (List.replicate results.length ((1:ℚ)/2)) ∧
    results_to_colors_ecotect results
      = some (List.replicate results.length (ecotect_color ((1:ℚ)/2))) := by
  obtain ⟨a, as, rfl⟩ := List.exists_cons_of_ne_nil hne
  have hmx : (a :: as).max? = some (as.foldl max a) := rfl
  have hmn : (a :: as).min? = some (as.foldl min a) := rfl
  rw [hmx, hmn] at heq
  have heq2 : as.foldl max a = as.foldl min a := Option.some.inj heq
  have hnorm : normalize_results (a :: as)
      = some (List.replicate (a :: as).length ((1:ℚ)/2)) := by
    simp only [normalize_results, hmx, hmn]
    rw [if_neg (by rw [heq2]; exact lt_irrefl _)]
    rw [List.map_const']
  exact ⟨hnorm, by rw [results_to_colors_ecotect, hnorm]; simp⟩

/-- Witness for C7 on the constant sequence `[3, 3]`. -/
theorem results_to_colors_const_witness :
    normalize_results [(3:ℚ), 3] = some (List.replicate 2 ((1:ℚ)/2)) ∧
    results_to_colors_ecotect [(3:ℚ), 3]
      = some (List.replicate 2 (ecotect_color ((1:ℚ)/2))) :=
  results_to_colors_const [3, 3] (by decide) (by decide)

/-- Claim C8 counterexample: on a client whose `status_callback` is set,
`stop_polling` leaves it set, so the operation does not clear both
callbacks as claimed. -/
theorem stop_polling_keeps_status_callback :
    ¬ ((stop_polling clientDemo).result_callback = none ∧
       (stop_polling clientDemo).status_callback = none) := by
  decide

/-- Claim C8 (amended): in every client state `stop_polling` clears the
poll timer handle, the tracked job id, and `result_callback`, leaves
`status_callback` untouched, and is idempotent. -/
theorem stop_polling_spec {κ : Type} (s : ClientState κ) :
    (stop_polling s).timer_id = none ∧
    (stop_polling s).current_job_id = none ∧
    (stop_polling s).result_callback = none ∧
    (stop_polling s).status_callback = s.status_callback ∧
    stop_polling (stop_polling s) = stop_polling s :=
  ⟨rfl, rfl, rfl, rfl, rfl⟩

/-- Witness for the amended C8 on a fully populated client state. -/
theorem stop_polling_spec_witness :
    (stop_polling clientDemo).timer_id = none ∧
    (stop_polling clientDemo).current_job_id = none ∧
    (stop_polling clientDemo).result_callback = none ∧
    (stop_polling clientDemo).status_callback = clientDemo.status_callback ∧
    stop_polling (stop_polling clientDemo) = stop_polling clientDemo :=
  stop_polling_spec clientDemo

/-- Claim C9: every channel of the color returned by the ecotect mapping
lies in the closed unit interval, for every rational input. -/
theorem ecotect_color_in_unit (x : ℚ) : inUnit (ecotect_color x) := by
  rw [ecotect_color]
  exact ecotect_of_val_in_unit _

/-- Witness for C9 at a concrete mid-segment input. -/
theorem ecotect_color_in_unit_witness : inUnit (ecotect_color ((7:ℚ)/10)) :=
  ecotect_color_in_unit _

/-- Claim C10: in every reachable server state each stored job status is
one of the four legal strings, and the health endpoint total equals the
sum of its four per-status counts. -/
theorem health_total_eq_sum (es : List Event) :
    (∀ q ∈ (run es).store, statusLegal q.2.status) ∧
    (root_health (run es).store).total
      = (root_health (run es).store).queued
        + (root_health (run es).store).processing
        + (root_health (run es).store).complete
        + (root_health (run es).store).error := by
  refine ⟨(inv_run es).1, ?_⟩
  have h := length_eq_four_counts (run es).store (inv_run es).1
  simpa [root_health] using h

/-- Witness for C10 on the concrete NaN-job trace. -/
theorem health_total_eq_sum_witness :
    (root_health (run esC1).store).total
      = (root_health (run esC1).store).queued
        + (root_health (run esC1).store).processing
        + (root_health (run esC1).store).complete
        + (root_health (run esC1).store).error :=
  (health_total_eq_sum esC1).2

end Soba
